import Mathlib

/-!
# Verification of the `code_prompt` file selection and rendering pipeline

Shallow embedding, in Lean 4, of the core logic of the `code_prompt`
repository (Rust): the brace-aware pattern splitter (`src/utils.rs`,
`smart_pattern_split`), the include/exclude decision (`src/main.rs`,
`Args::should_include`), pattern compilation (`src/main.rs` regex caching and
`src/args.rs`, `Args::build_overrides`), the per-file renderers
(`src/args.rs`, `Args::write_buffer` and the output loop in `src/main.rs`),
and the file-processing loop of `main`.

External library calls (the `regex` crate's `Regex::new` / `is_match`, the
`ignore` crate's `OverrideBuilder::add`, and the filesystem) are abstracted
as function parameters; everything the repository itself computes is
translated directly from the Rust source.  Note that `src/main.rs` only
declares `mod utils;`: the `Args` in `src/args.rs` (glob overrides,
`write_buffer`) is an alternate revision of the same logic, kept in the
repository but not referenced by `main`.  Both variants are embedded.
-/

namespace CodePrompt

/-! ## `src/utils.rs`: `smart_pattern_split`

The Rust loop keeps three pieces of state: the brace depth (an integer,
clamped at zero on `}`), the current pattern accumulator, and the list of
emitted patterns.  `stepDepth` is the depth update applied to every
character; `splitLoop` is the loop body. -/

/-- Depth update for one character: `{` increments, `}` decrements but never
below zero (the clamp in `src/utils.rs` lines 47-52), all else unchanged. -/
def stepDepth (depth : Int) (c : Char) : Int :=
  if c = '{' then depth + 1
  else if c = '}' then (if 0 < depth then depth - 1 else depth)
  else depth

/-- The character loop of `smart_pattern_split`: a `,` at depth 0 emits the
accumulator when non-empty; every other character (including `,` at positive
depth and both braces) is pushed onto the accumulator. -/
def splitLoop : List Char → Int → String → List String → List String
  | [], _, current_pattern, patterns =>
      if current_pattern.isEmpty then patterns else patterns ++ [current_pattern]
  | c :: cs, brace_depth, current_pattern, patterns =>
      if c = ',' ∧ brace_depth = 0 then
        if current_pattern.isEmpty then
          splitLoop cs (stepDepth brace_depth c) current_pattern patterns
        else
          splitLoop cs (stepDepth brace_depth c) "" (patterns ++ [current_pattern])
      else
        splitLoop cs (stepDepth brace_depth c) (current_pattern.push c) patterns

/-- `smart_pattern_split` from `src/utils.rs`: split a comma-separated
pattern string at commas at brace depth zero only. -/
def smart_pattern_split (pattern_str : String) : List String :=
  splitLoop pattern_str.toList 0 "" []

/-- The successive values taken by the brace-depth counter while scanning a
character list from a starting depth. -/
def depthTrace (depth : Int) : List Char → List Int
  | [] => []
  | c :: cs => stepDepth depth c :: depthTrace (stepDepth depth c) cs

/-! ## `src/main.rs`: `Args::should_include`

The compiled regexes of the `regex` crate are external; a compiled pattern
is abstracted as its matching function `String → Bool`.  The two cached
fields `exclude_regexs` / `include_regexs` are `Option`s of lists exactly as
in the Rust struct (they stay `None` when the corresponding CLI flag is
absent). -/

/-- A compiled regex, abstracted by its `is_match` function. -/
def CompiledRegex : Type := String → Bool

/-- The two cached pattern fields of `Args` in `src/main.rs`. -/
structure FilterArgs where
  exclude_regexs : Option (List CompiledRegex)
  include_regexs : Option (List CompiledRegex)

/-- The early-return condition of the first block of `should_include`:
`exclude_regexs` is present, non-empty, and some pattern matches. -/
def excludeHit (a : FilterArgs) (path : String) : Bool :=
  match a.exclude_regexs with
  | some ps => !ps.isEmpty && ps.any (fun re => re path)
  | none => false

/-- The early-return condition of the second block of `should_include`:
`include_regexs` is present, non-empty, and some pattern matches. -/
def includeHit (a : FilterArgs) (path : String) : Bool :=
  match a.include_regexs with
  | some ps => !ps.isEmpty && ps.any (fun re => re path)
  | none => false

/-- `exclude_is_empty` as left by the first block: `true` when the field is
absent, else emptiness of the list. -/
def exclude_is_empty (a : FilterArgs) : Bool :=
  match a.exclude_regexs with
  | some ps => ps.isEmpty
  | none => true

/-- `include_is_empty` as left by the second block. -/
def include_is_empty (a : FilterArgs) : Bool :=
  match a.include_regexs with
  | some ps => ps.isEmpty
  | none => true

/-- `Args::should_include` from `src/main.rs` lines 65-82: exclude match
returns `false`, else include match returns `true`, else the caller default,
else acceptance exactly when no pattern set is configured. -/
def should_include (a : FilterArgs) (path : String) (default_include : Option Bool) :
    Bool :=
  if excludeHit a path then false
  else if includeHit a path then true
  else default_include.getD (exclude_is_empty a && include_is_empty a)

/-! ## Pattern compilation

`src/main.rs` lines 181-199 cache the regex patterns: the raw string is
split at every comma (`split(',')`, not the brace-aware splitter), empty
entries dropped, and each entry compiled with `Regex::new(p).ok()` under
`filter_map` — a pattern that fails to compile is dropped with no error.
`Regex::new` is abstracted as an `Option`-returning compile function.

`src/args.rs` lines 71-101 (`build_overrides`) instead split with
`smart_pattern_split`, prefix exclude patterns with `!`, and propagate any
`OverrideBuilder::add` failure with `?`.  `add` is abstracted as a validity
predicate; the builder state is the list of accepted patterns. -/

/-- The comma split of `str::split(',')`: every comma splits, empty fields
are kept (the caller filters them). -/
def commaSplit : List Char → String → List String
  | [], cur => [cur]
  | c :: cs, cur => if c = ',' then cur :: commaSplit cs "" else commaSplit cs (cur.push c)

/-- Regex caching from `src/main.rs` `main`: split at commas, drop empty
entries, compile each, silently dropping failures (`filter_map` + `.ok()`). -/
def compile_regexs (compile : String → Option CompiledRegex) (s : String) :
    List CompiledRegex :=
  ((commaSplit s.toList "").filter (fun p => !p.isEmpty)).filterMap compile

/-- A compile function on which the pattern `"["` fails, as `Regex::new("[")`
does, and every other pattern compiles to an exact matcher. -/
def bracketFails : String → Option CompiledRegex :=
  fun p => if p = "[" then none else some (fun q => q == p)

/-- The non-empty patterns contributed by one optional CLI string in
`build_overrides` (`smart_pattern_split` + `filter(|p| !p.is_empty())`). -/
def nonEmptyPatterns : Option String → List String
  | some s => (smart_pattern_split s).filter (fun p => !p.isEmpty)
  | none => []

/-- The `builder.add(..)?` loop of `build_overrides`: each pattern is checked
by the abstracted `OverrideBuilder::add`; the first invalid one aborts with
an error carrying that pattern, as the `?` operator does. -/
def addPatterns (ok : String → Bool) : List String → List String →
    Except String (List String)
  | [], acc => .ok acc
  | p :: rest, acc => if ok p then addPatterns ok rest (acc ++ [p]) else .error p

/-- `Args::build_overrides` from `src/args.rs`: add the include patterns,
then the exclude patterns prefixed with `!`; any failure propagates; the
result is `none` when no pattern was supplied (`has_patterns` stays false),
else the accepted pattern list. -/
def build_overrides (ok : String → Bool) (include? exclude? : Option String) :
    Except String (Option (List String)) :=
  match addPatterns ok (nonEmptyPatterns include?) [] with
  | .error e => .error e
  | .ok incs =>
      match addPatterns ok ((nonEmptyPatterns exclude?).map (fun p => "!" ++ p)) incs with
      | .error e => .error e
      | .ok all => if all.isEmpty then .ok none else .ok (some all)

/-! ## `src/utils.rs`: `detect_language_from_path`

`Path::extension()` is the text of the file name after its last `.`, absent
when the file name has no `.` or is a dotfile with no further `.`; the
extension is lowercased and looked up in the static `LANG_EXT_MD_MAP`. -/

/-- The suffix of a character list after the last occurrence of `sep` (the
whole list when `sep` does not occur). -/
def afterChar (sep : Char) (cs : List Char) : List Char :=
  cs.foldl (fun acc c => if c = sep then [] else acc ++ [c]) []

/-- `Path::extension()` on a file name: `none` without a `.` or for a
dotfile such as `.gitignore` with no other `.`; otherwise the characters
after the last `.`. -/
def extensionChars? : List Char → Option (List Char)
  | [] => none
  | c :: rest =>
      if c = '.' then
        (if '.' ∈ rest then some (afterChar '.' rest) else none)
      else
        (if '.' ∈ (c :: rest) then some (afterChar '.' (c :: rest)) else none)

/-- The static `LANG_EXT_MD_MAP` of `src/utils.rs`: lowercased extension to
markdown language tag. -/
def LANG_EXT_MD_MAP (ext : String) : Option String :=
  List.lookup ext
    [("rs", "rust"), ("go", "go"), ("swift", "swift"), ("dart", "dart"),
     ("js", "javascript"), ("ts", "typescript"), ("py", "python"),
     ("yaml", "yaml"), ("yml", "yaml"), ("xml", "xml"), ("toml", "toml"),
     ("java", "java"), ("sh", "bash"), ("html", "html"), ("htm", "html"),
     ("css", "css"), ("json", "json"), ("md", "markdown"), ("sql", "sql"),
     ("c", "c"), ("h", "c"), ("cpp", "cpp"), ("hpp", "cpp"), ("cc", "cpp"),
     ("cxx", "cpp"), ("kt", "kotlin"), ("kts", "kotlin"), ("r", "r"),
     ("ex", "elixir"), ("exs", "elixir"), ("hs", "haskell"), ("pl", "perl"),
     ("cs", "csharp"), ("fs", "fsharp"), ("fsx", "fsharp"), ("rb", "ruby"),
     ("php", "php"), ("csv", "csv"), ("bat", "batch"), ("ps1", "powershell"),
     ("psm1", "powershell"), ("psd1", "powershell"), ("ps1xml", "powershell"),
     ("cmd", "batch"), ("vbs", "vbscript")]

/-- `detect_language_from_path` from `src/utils.rs`: extension of the file
name (after the last `/`), lowercased, looked up in the table. -/
def detect_language_from_path (path : String) : Option String :=
  (extensionChars? (afterChar '/' path.toList)).bind
    (fun ext => LANG_EXT_MD_MAP (String.mk (ext.map Char.toLower)))

/-! ## Line splitting: Rust's `str::lines()`

Both renderers iterate `content.lines()`: lines are split at `\n` or at
`\r\n` (the `\r` of a `\r\n` boundary is stripped), the final line ending is
optional, and a carriage return not followed by a line feed is kept — a
trailing lone `\r` is included in the last line. -/

/-- The line emitted at a `\n` terminator: the accumulated characters with
the `\r` of a `\r\n` boundary stripped. -/
def lineOf (cur : List Char) : String :=
  String.mk (if cur.getLast? = some '\r' then cur.dropLast else cur)

/-- The character loop of `str::lines()`: emit `lineOf` the accumulator at
each `\n`; at the end of input emit the raw accumulator when non-empty (its
trailing `\r`, if any, is not part of a `\r\n` boundary and is kept). -/
def linesGo : List Char → List Char → List String
  | cur, [] => if cur.isEmpty then [] else [String.mk cur]
  | cur, c :: cs => if c = '\n' then lineOf cur :: linesGo [] cs else linesGo (cur ++ [c]) cs

/-- Rust `str::lines()`. -/
def rustLines (s : String) : List String :=
  linesGo [] s.toList

/-! ## Rendering

`Args::write_buffer` (`src/args.rs` lines 144-181) renders
`## <path>\n\n` + fence with optional language tag + filtered body +
`\x60\x60\x60\n\n`.  The output loop of `main` (`src/main.rs` lines 250-270)
instead writes `<path>\n` + a bare fence + the body + the closing fence and
blank line, with no `## ` header, no separating blank line and no language
tag. -/

/-- One emitted body line of `write_buffer`: `"{i+1}\t{line}\n"` when line
numbers are on; otherwise the line followed by a newline unless it already
ends in one (it never does, coming from `lines()`). -/
def emitLine (line_number : Bool) (i : Nat) (line : String) : String :=
  if line_number then toString (i + 1) ++ "\t" ++ line ++ "\n"
  else line ++ (if line.data.getLast? = some '\n' then "" else "\n")

/-- The line loop of `write_buffer`: skip a line exactly when it is empty
and `ignore_empty_lines` is set; emit every other line. -/
def bodyBuf (line_number ignore_empty_lines : Bool) : List (Nat × String) → String
  | [] => ""
  | (i, line) :: rest =>
      if line.isEmpty && ignore_empty_lines then bodyBuf line_number ignore_empty_lines rest
      else emitLine line_number i line ++ bodyBuf line_number ignore_empty_lines rest

/-- `Args::write_buffer` from `src/args.rs`: header, fence with optional
language tag, filtered body, closing fence, trailing blank line. -/
def write_buffer (line_number ignore_empty_lines : Bool) (path content : String) :
    String :=
  "## " ++ path ++ "\n\n" ++
    (match detect_language_from_path path with
     | some lang => "```" ++ lang ++ "\n"
     | none => "```\n") ++
    bodyBuf line_number ignore_empty_lines (rustLines content).enum ++
    "```\n\n"

/-- The numbered body of the `main` output loop: `"{i+1}\t{line}\n"` for
every line, no filtering. -/
def numberedBody : List (Nat × String) → String
  | [] => ""
  | (i, line) :: rest => toString (i + 1) ++ "\t" ++ line ++ "\n" ++ numberedBody rest

/-- The per-file block written by `main` (`src/main.rs` lines 250-270):
`<normalized path>\n` + bare fence + body (numbered lines, or the raw
content with a newline appended when missing) + closing fence and blank
line. -/
def render_block_main (line_number : Bool) (path content : String) : String :=
  path ++ "\n```\n" ++
    (if line_number then numberedBody (rustLines content).enum
     else content ++ (if content.data.getLast? = some '\n' then "" else "\n")) ++
    "```\n\n"

/-! ## The file-processing loop of `main`

`src/main.rs` lines 245-271: each selected file is read with
`fs::read_to_string(..).with_context(..)?` — a read failure aborts the whole
run with the contextualized error; on success the file's block is appended
to the output.  The filesystem read is abstracted as an `Except`-returning
function. -/

/-- The read-and-write loop of `main`: aborts at the first unreadable file
with the `with_context` message; otherwise concatenates the blocks in
selection order. -/
def process_files (read : String → Except String String) (line_number : Bool) :
    List String → Except String String
  | [] => .ok ""
  | f :: rest =>
      match read f with
      | .error _ => .error ("Failed to read file " ++ f)
      | .ok content =>
          match process_files read line_number rest with
          | .error e => .error e
          | .ok out => .ok (render_block_main line_number f content ++ out)

/-- A filesystem on which `"a.rs"` is unreadable (deleted or non-UTF8) and
every other file reads as `"x"`. -/
def flakyRead : String → Except String String :=
  fun f => if f = "a.rs" then .error "stream did not contain valid UTF-8" else .ok "x"

/-- A list of lines, each terminated by exactly one newline: the body shape
the spec prescribes for a rendered block. -/
def joinLines : List String → String
  | [] => ""
  | l :: rest => l ++ "\n" ++ joinLines rest

/-! ## Theorems -/

/-- One step of the depth counter preserves non-negativity: the `}` branch
is guarded by `brace_depth > 0`. -/
theorem stepDepth_nonneg {d : Int} (c : Char) (h : 0 ≤ d) : 0 ≤ stepDepth d c := by
  unfold stepDepth
  split
  · omega
  · split
    · split <;> omega
    · exact h

/-- Every depth value reached from a non-negative start is non-negative. -/
theorem depthTrace_nonneg {d : Int} (cs : List Char) (h : 0 ≤ d) :
    ∀ x ∈ depthTrace d cs, 0 ≤ x := by
  induction cs generalizing d with
  | nil => intro x hx; simp [depthTrace] at hx
  | cons c cs ih =>
      intro x hx
      simp only [depthTrace, List.mem_cons] at hx
      rcases hx with rfl | hx
      · exact stepDepth_nonneg c h
      · exact ih (stepDepth_nonneg c h) x hx

/-- Any pattern emitted by the split loop is non-empty, provided the already
emitted ones are: the two `push` sites are guarded by `!current.is_empty()`. -/
theorem splitLoop_ne_empty (cs : List Char) :
    ∀ (d : Int) (cur : String) (pats : List String),
      (∀ p ∈ pats, p ≠ "") → ∀ p ∈ splitLoop cs d cur pats, p ≠ "" := by
  induction cs with
  | nil =>
      intro d cur pats hpats p hp
      unfold splitLoop at hp
      split at hp
      · exact hpats p hp
      · rename_i hne
        rcases List.mem_append.mp hp with h | h
        · exact hpats p h
        · rcases List.mem_singleton.mp h with rfl
          intro hcontra
          apply hne
          rw [hcontra]
          rfl
  | cons c cs ih =>
      intro d cur pats hpats p hp
      unfold splitLoop at hp
      split at hp
      · split at hp
        · exact ih _ _ _ hpats p hp
        · rename_i hne
          refine ih _ _ _ ?_ p hp
          intro q hq
          rcases List.mem_append.mp hq with h | h
          · exact hpats q h
          · rcases List.mem_singleton.mp h with rfl
            intro hcontra
            apply hne
            rw [hcontra]
            rfl
      · exact ih _ _ _ hpats p hp

/-- C3: the splitter splits only at commas at brace depth zero; on
`"*.png,*.ico,lib/{generated,l10n}*"` it returns exactly the three patterns
`["*.png", "*.ico", "lib/{generated,l10n}*"]`, the comma inside the braces
not splitting. -/
theorem smart_pattern_split_brace_aware :
    smart_pattern_split "*.png,*.ico,lib/{generated,l10n}*" =
      ["*.png", "*.ico", "lib/{generated,l10n}*"] := by
  decide

/-- C4: the splitter is total over all strings with the depth counter clamped
at zero — every intermediate depth value is non-negative — and on the
unbalanced input `"a,b}"` it yields exactly `["a", "b}"]`. -/
theorem smart_pattern_split_clamped (s : String) :
    (∀ x ∈ depthTrace 0 s.toList, 0 ≤ x) ∧
      smart_pattern_split "a,b\x7d" = ["a", "b\x7d"] := by
  refine ⟨depthTrace_nonneg s.toList (le_refl 0), by decide⟩

/-- C4 witness: the clamp theorem applied to the concrete input `"}}a"`,
whose first scanned depth value (after the unmatched `}`) is `0`. -/
theorem smart_pattern_split_clamped_witness : (0 : Int) ≤ 0 :=
  (smart_pattern_split_clamped "\x7d\x7da").1 0 (by decide)

/-- C10: the empty input splits to the empty list, and every entry the
splitter returns is a non-empty string (empty accumulators are never
emitted, at commas or at the end of input). -/
theorem smart_pattern_split_no_empty (s : String) :
    smart_pattern_split "" = [] ∧ ∀ p ∈ smart_pattern_split s, p ≠ "" := by
  constructor
  · decide
  · exact splitLoop_ne_empty s.toList 0 "" [] (by intro p hp; simp at hp)

/-- C10 witness: on `",,a,"` (leading, consecutive and trailing commas) the
sole entry `"a"` is non-empty. -/
theorem smart_pattern_split_no_empty_witness : "a" ≠ "" :=
  (smart_pattern_split_no_empty ",,a,").2 "a" (by decide)

/-- A list matcher hits exactly when it is non-empty and some element
matches; the emptiness guard in `should_include` is redundant. -/
theorem any_hit (ps : List CompiledRegex) (path : String)
    (h : ps.any (fun re => re path) = true) :
    (!ps.isEmpty && ps.any (fun re => re path)) = true := by
  cases ps with
  | nil => simp [List.any] at h
  | cons p ps => simp_all [List.isEmpty]

/-- C1: exclude patterns are checked first — if any exclude pattern matches
the path, `should_include` is `false` regardless of the include patterns and
of the default; otherwise, if any include pattern matches, it is `true`. -/
theorem should_include_exclude_first (a : FilterArgs) (path : String)
    (d : Option Bool) :
    ((a.exclude_regexs.getD []).any (fun re => re path) = true →
      should_include a path d = false) ∧
    ((a.exclude_regexs.getD []).any (fun re => re path) = false →
      (a.include_regexs.getD []).any (fun re => re path) = true →
      should_include a path d = true) := by
  constructor
  · intro h
    unfold should_include
    have hx : excludeHit a path = true := by
      unfold excludeHit
      cases hc : a.exclude_regexs with
      | none => simp [hc] at h
      | some ps => simp only [hc, Option.getD] at h ⊢; exact any_hit ps path h
    simp [hx]
  · intro hex hinc
    unfold should_include
    have hx : excludeHit a path = false := by
      unfold excludeHit
      cases hc : a.exclude_regexs with
      | none => rfl
      | some ps => simp only [hc, Option.getD] at hex ⊢; simp [hex]
    have hi : includeHit a path = true := by
      unfold includeHit
      cases hc : a.include_regexs with
      | none => simp [hc] at hinc
      | some ps => simp only [hc, Option.getD] at hinc ⊢; exact any_hit ps path hinc
    simp [hx, hi]

/-- C1 witness: with exclude and include both matching `"important.log"`,
the decision at `"important.log"` is `false` — exclude wins. -/
theorem should_include_exclude_first_witness :
    should_include
      ⟨some [fun p => p == "important.log"], some [fun p => p == "important.log"]⟩
      "important.log" (some true) = false :=
  (should_include_exclude_first
      ⟨some [fun p => p == "important.log"], some [fun p => p == "important.log"]⟩
      "important.log" (some true)).1 (by decide)

/-- C2: when no pattern matches the path, a supplied default is returned
as-is, and with no default the result is `true` exactly when both pattern
sets are empty (absent or empty lists). -/
theorem should_include_default (a : FilterArgs) (path : String) (b : Bool)
    (hex : (a.exclude_regexs.getD []).any (fun re => re path) = false)
    (hinc : (a.include_regexs.getD []).any (fun re => re path) = false) :
    should_include a path (some b) = b ∧
      should_include a path none =
        ((a.exclude_regexs.getD []).isEmpty && (a.include_regexs.getD []).isEmpty) := by
  have hx : excludeHit a path = false := by
    unfold excludeHit
    cases hc : a.exclude_regexs with
    | none => rfl
    | some ps => simp only [hc, Option.getD] at hex ⊢; simp [hex]
  have hi : includeHit a path = false := by
    unfold includeHit
    cases hc : a.include_regexs with
    | none => rfl
    | some ps => simp only [hc, Option.getD] at hinc ⊢; simp [hinc]
  have hxe : exclude_is_empty a = (a.exclude_regexs.getD []).isEmpty := by
    unfold exclude_is_empty
    cases a.exclude_regexs <;> rfl
  have hie : include_is_empty a = (a.include_regexs.getD []).isEmpty := by
    unfold include_is_empty
    cases a.include_regexs <;> rfl
  constructor
  · unfold should_include
    simp [hx, hi]
  · unfold should_include
    simp [hx, hi, hxe, hie]

/-- C2 witness: with only an exclude pattern configured and path
`"readme.md"` unmatched, a supplied default `true` is returned, and with no
default the result is `false` (a pattern is configured but none matched). -/
theorem should_include_default_witness :
    should_include ⟨some [fun p => p == "x.tmp"], none⟩ "readme.md" (some true)
        = true ∧
      should_include ⟨some [fun p => p == "x.tmp"], none⟩ "readme.md" none
        = false := by
  have h := should_include_default ⟨some [fun p => p == "x.tmp"], none⟩
    "readme.md" true (by decide) (by decide)
  exact ⟨h.1, by rw [h.2]; rfl⟩

/-- C5 counterexample: in `main`'s regex caching, the invalid pattern `"["`
(on which `Regex::new` fails) is silently dropped: the raw string `"[,a"`
holds two non-empty patterns, yet compilation yields a single matcher and no
error — the run continues with partial filtering, contradicting the claim
that an invalid pattern aborts the run and is never silently skipped. -/
theorem compile_regexs_silently_skips :
    bracketFails "[" = none ∧
      ((commaSplit "[,a".toList "").filter (fun p => !p.isEmpty)).length = 2 ∧
      (compile_regexs bracketFails "[,a").length = 1 :=
  ⟨rfl, by decide, rfl⟩

/-- The `add` loop aborts with an error as soon as any pattern of the list is
invalid, wherever it stands. -/
theorem addPatterns_error (ok : String → Bool) :
    ∀ (ps : List String) (acc : List String) (p : String), p ∈ ps → ok p = false →
      ∃ e, addPatterns ok ps acc = .error e := by
  intro ps
  induction ps with
  | nil => intro acc p hp _; simp at hp
  | cons q rest ih =>
      intro acc p hp hbad
      rcases List.mem_cons.mp hp with rfl | hp'
      · refine ⟨p, ?_⟩
        unfold addPatterns
        rw [hbad]
        rfl
      · by_cases hq : ok q = true
        · obtain ⟨e, he⟩ := ih (acc ++ [q]) p hp' hbad
          refine ⟨e, ?_⟩
          unfold addPatterns
          rw [hq]
          exact he
        · refine ⟨q, ?_⟩
          unfold addPatterns
          rw [Bool.of_not_eq_true hq]
          rfl

/-- C5 amended: in the glob variant (`Args::build_overrides` in
`src/args.rs`), one invalid pattern — among the split include patterns or
the `!`-prefixed exclude patterns — makes the whole build fail with an
error, before any walk is built; the regex variant in `src/main.rs` instead
drops invalid patterns silently (the counterexample). -/
theorem build_overrides_fail_fast (ok : String → Bool) (inc exc : Option String)
    (p : String)
    (hp : p ∈ nonEmptyPatterns inc ++ (nonEmptyPatterns exc).map (fun q => "!" ++ q))
    (hbad : ok p = false) :
    ∃ e, build_overrides ok inc exc = .error e := by
  rcases List.mem_append.mp hp with h | h
  · obtain ⟨e, he⟩ := addPatterns_error ok _ [] p h hbad
    refine ⟨e, ?_⟩
    unfold build_overrides
    rw [he]
  · cases hi : addPatterns ok (nonEmptyPatterns inc) [] with
    | error e =>
        refine ⟨e, ?_⟩
        unfold build_overrides
        rw [hi]
    | ok incs =>
        obtain ⟨e, he⟩ := addPatterns_error ok _ incs p h hbad
        refine ⟨e, ?_⟩
        unfold build_overrides
        rw [hi]
        dsimp only
        rw [he]

/-- C5 witness: with include string `"[,a"` and a compiler rejecting `"["`,
the glob-variant build fails. -/
theorem build_overrides_fail_fast_witness :
    ∃ e, build_overrides (fun p => !(p == "[")) (some "[,a") none = .error e :=
  build_overrides_fail_fast (fun p => !(p == "[")) (some "[,a") none "["
    (by decide) (by decide)

/-- C6 counterexample: with two selected files of which the first is
unreadable, the processing loop of `main` returns the contextualized read
error — the run aborts; it does not skip the file and continue, and the
readable second file is never rendered. -/
theorem process_files_error_aborts_run :
    process_files flakyRead false ["a.rs", "b.rs"] =
      .error "Failed to read file a.rs" := by
  rfl

/-- C6 amended: when every file before `f` reads successfully and `f` fails
to read, the loop returns `.error ("Failed to read file " ++ f)` — the run
aborts at the first unreadable file instead of skipping it, and the files
after `f` are not processed. -/
theorem process_files_fail_fast (read : String → Except String String) (ln : Bool)
    (pre : List String) (f : String) (rest : List String)
    (hpre : ∀ p ∈ pre, ∃ s, read p = .ok s) (e : String) (hf : read f = .error e) :
    process_files read ln (pre ++ f :: rest) = .error ("Failed to read file " ++ f) := by
  induction pre with
  | nil =>
      simp only [List.nil_append]
      unfold process_files
      rw [hf]
  | cons q qs ih =>
      obtain ⟨s, hs⟩ := hpre q (List.mem_cons_self q qs)
      have hrec := ih (fun p hp => hpre p (List.mem_cons_of_mem q hp))
      simp only [List.cons_append]
      unfold process_files
      rw [hs, hrec]

/-- C6 witness: the fail-fast theorem applied with one readable file before
the unreadable `"a.rs"`. -/
theorem process_files_fail_fast_witness :
    process_files flakyRead false ["b.rs", "a.rs"] =
      .error "Failed to read file a.rs" :=
  process_files_fail_fast flakyRead false ["b.rs"] "a.rs" []
    (by intro p hp; rcases List.mem_singleton.mp hp with rfl; exact ⟨"x", rfl⟩)
    "stream did not contain valid UTF-8" (by rfl)

/-- A line built at a `\n` boundary from characters among which `\n` does
not occur is itself newline-free. -/
theorem lineOf_no_newline (cur : List Char) (h : '\n' ∉ cur) :
    '\n' ∉ (lineOf cur).data := by
  intro hmem
  have hmem' : '\n' ∈ (if cur.getLast? = some '\r' then cur.dropLast else cur) := hmem
  apply h
  by_cases hr : cur.getLast? = some '\r'
  · rw [if_pos hr] at hmem'
    exact (List.dropLast_sublist cur).mem hmem'
  · rw [if_neg hr] at hmem'
    exact hmem'

/-- No line produced by the `lines()` loop contains a newline: the
accumulator only ever receives characters other than `\n`. -/
theorem linesGo_no_newline :
    ∀ (cs cur : List Char), '\n' ∉ cur →
      ∀ l ∈ linesGo cur cs, '\n' ∉ l.data := by
  intro cs
  induction cs with
  | nil =>
      intro cur hcur l hl
      unfold linesGo at hl
      split at hl
      · simp at hl
      · rcases List.mem_singleton.mp hl with rfl
        exact hcur
  | cons c cs ih =>
      intro cur hcur l hl
      unfold linesGo at hl
      split at hl
      · rcases List.mem_cons.mp hl with rfl | hl'
        · exact lineOf_no_newline cur hcur
        · exact ih [] (by simp) l hl'
      · rename_i hc
        refine ih (cur ++ [c]) ?_ l hl
        intro hmem
        rcases List.mem_append.mp hmem with h | h
        · exact hcur h
        · exact hc (List.mem_singleton.mp h ▸ rfl)

/-- Every line of `rustLines` is newline-free. -/
theorem rustLines_no_newline (s : String) :
    ∀ l ∈ rustLines s, '\n' ∉ l.data :=
  linesGo_no_newline s.toList [] (by simp)

/-- Hence no line of `rustLines` ends in a newline. -/
theorem rustLines_last_ne_newline (s : String) :
    ∀ l ∈ rustLines s, l.data.getLast? ≠ some '\n' :=
  fun l hl hc => rustLines_no_newline s l hl (List.mem_of_mem_getLast? hc)

/-- With both filters off, the `write_buffer` line loop emits every line
followed by exactly one newline: the body is the newline-joined lines. -/
theorem bodyBuf_enumFrom (lines : List String)
    (h : ∀ l ∈ lines, l.data.getLast? ≠ some '\n') :
    ∀ n : Nat, bodyBuf false false (List.enumFrom n lines) = joinLines lines := by
  induction lines with
  | nil => intro n; rfl
  | cons l rest ih =>
      intro n
      have hl : l.data.getLast? ≠ some '\n' := h l (List.mem_cons_self l rest)
      have hrest : ∀ l' ∈ rest, l'.data.getLast? ≠ some '\n' :=
        fun l' hl' => h l' (List.mem_cons_of_mem l hl')
      show bodyBuf false false ((n, l) :: List.enumFrom (n + 1) rest) = joinLines (l :: rest)
      unfold bodyBuf
      rw [Bool.and_false]
      simp only [Bool.false_eq_true, if_false]
      rw [ih hrest (n + 1)]
      unfold emitLine
      rw [if_neg (by exact Bool.false_ne_true), if_neg hl]
      show l ++ "\n" ++ joinLines rest = joinLines (l :: rest)
      rfl

/-- C7 counterexample: the block `main` writes for path `"a.rs"` and content
`"x"` is `"a.rs\n"` + bare fence + body + closing fence + blank line — it is
not the claimed `"## "` header block with a blank separator line and a
`rust` language tag. -/
theorem render_block_main_not_claimed_format :
    render_block_main false "a.rs" "x" = "a.rs\n```\nx\n```\n\n" ∧
      render_block_main false "a.rs" "x" ≠ "## a.rs\n\n```rust\nx\n```\n\n" := by
  exact ⟨by decide, by decide⟩

/-- C7 amended: the block written by the output loop of `main` is
`<path>\n` + `\x60\x60\x60\n` + content (newline-appended when missing) +
closing fence and blank line, with no `## ` header, separator blank line or
language tag; the `write_buffer` renderer of `src/args.rs` is the one that
produces `## <path>\n\n` + fence with optional language tag + the
newline-joined body lines + closing fence and blank line. -/
theorem block_formats (path c : String) :
    render_block_main false path c =
      path ++ "\n```\n" ++
        (c ++ (if c.data.getLast? = some '\n' then "" else "\n")) ++ "```\n\n" ∧
      write_buffer false false path c =
        "## " ++ path ++ "\n\n" ++
          (match detect_language_from_path path with
           | some lang => "```" ++ lang ++ "\n"
           | none => "```\n") ++
          joinLines (rustLines c) ++ "```\n\n" := by
  constructor
  · rfl
  · unfold write_buffer
    rw [show (rustLines c).enum = List.enumFrom 0 (rustLines c) from rfl]
    rw [bodyBuf_enumFrom (rustLines c) (rustLines_last_ne_newline c) 0]

/-- C8 counterexample: no supported option configuration drops comment
lines — under all four combinations of `line_number` and
`ignore_empty_lines`, the `//`-prefixed line of a `.rs` file is rendered;
there is no `ignore_comments` option in the repository. -/
theorem write_buffer_keeps_comment_lines :
    write_buffer false false "a.rs" "// c\nx" = "## a.rs\n\n```rust\n// c\nx\n```\n\n" ∧
      write_buffer false true "a.rs" "// c\nx" = "## a.rs\n\n```rust\n// c\nx\n```\n\n" ∧
      write_buffer true false "a.rs" "// c\nx" = "## a.rs\n\n```rust\n1\t// c\n2\tx\n```\n\n" ∧
      write_buffer true true "a.rs" "// c\nx" = "## a.rs\n\n```rust\n1\t// c\n2\tx\n```\n\n" := by
  exact ⟨by decide, by decide, by decide, by decide⟩

/-- C8 amended: the renderer has no `ignore_comments` option; its only line
filter drops empty lines under `ignore_empty_lines`, so a line whose
leading-whitespace-trimmed text starts with the comment prefix `//` is
always emitted, under every option configuration. -/
theorem comment_lines_always_kept (ln iel : Bool) (i : Nat) (l : String)
    (rest : List (Nat × String))
    (h : (l.data.dropWhile Char.isWhitespace).take 2 = ['/', '/']) :
    bodyBuf ln iel ((i, l) :: rest) = emitLine ln i l ++ bodyBuf ln iel rest := by
  have hne : l.isEmpty = false := by
    cases hl : l.isEmpty
    · rfl
    · exfalso
      have hnil : l = "" := (String.isEmpty_iff l).mp hl
      rw [hnil] at h
      simp at h
  show (if l.isEmpty && iel then bodyBuf ln iel rest
        else emitLine ln i l ++ bodyBuf ln iel rest) =
      emitLine ln i l ++ bodyBuf ln iel rest
  rw [hne, Bool.false_and]
  rfl

/-- C8 witness: the comment line `"// x"` is emitted even with
`ignore_empty_lines` set. -/
theorem comment_lines_always_kept_witness :
    bodyBuf false true [(0, "// x")] = emitLine false 0 "// x" ++ bodyBuf false true [] :=
  comment_lines_always_kept false true 0 "// x" [] (by decide)

/-- C9: newline normalization — a line produced by the line iterator never
contains a newline, so every emitted body line is the line's text (numbered
or plain) followed by exactly one appended newline, whether or not the
source line carried a terminator; in particular rendering `"a\nb"` (no
trailing newline) and `"a\nb\n"` with the same path and options produces
identical output in both renderers. -/
theorem render_newline_idempotent (ln iel : Bool) (path c : String) :
    (∀ l ∈ rustLines c, '\n' ∉ l.data) ∧
      (∀ (i : Nat) (l : String), '\n' ∉ l.data →
        emitLine ln i l = (if ln then toString (i + 1) ++ "\t" ++ l else l) ++ "\n") ∧
      write_buffer ln iel path "a\nb" = write_buffer ln iel path "a\nb\n" ∧
      render_block_main ln path "a\nb" = render_block_main ln path "a\nb\n" := by
  have hlines : rustLines "a\nb\n" = rustLines "a\nb" := by decide
  refine ⟨rustLines_no_newline c, ?_, ?_, ?_⟩
  · intro i l hl
    have hlast : l.data.getLast? ≠ some '\n' :=
      fun hc => hl (List.mem_of_mem_getLast? hc)
    unfold emitLine
    cases ln with
    | true => rfl
    | false =>
        simp only [Bool.false_eq_true, if_false]
        rw [if_neg hlast]
  · unfold write_buffer
    rw [hlines]
  · unfold render_block_main
    rw [hlines]
    cases ln with
    | true => rfl
    | false =>
        simp only [Bool.false_eq_true, if_false]
        rw [show ("a\nb\n" ++ (if ("a\nb\n" : String).data.getLast? = some '\n'
              then "" else "\n") : String) =
            "a\nb" ++ (if ("a\nb" : String).data.getLast? = some '\n'
              then "" else "\n") from by decide]

/-- C9 witness: each emitted line carries exactly one appended newline, and
`"a\nb"` and `"a\nb\n"` render to identical buffers in both renderers. -/
theorem render_newline_idempotent_witness :
    emitLine false 0 "a" = "a" ++ "\n" ∧
      write_buffer false false "f.rs" "a\nb" = write_buffer false false "f.rs" "a\nb\n" ∧
      render_block_main false "f.rs" "a\nb" = render_block_main false "f.rs" "a\nb\n" :=
  ⟨(render_newline_idempotent false false "f.rs" "a\nb").2.1 0 "a" (by decide),
   (render_newline_idempotent false false "f.rs" "a\nb").2.2.1,
   (render_newline_idempotent false false "f.rs" "a\nb").2.2.2⟩

end CodePrompt
